import Mathlib

/-
Verification development for the mensa-bot repository.

The Rust sources `src/commands.rs` and `src/mensa/api.rs` are shallowly
embedded below.  Calendar dates (`chrono::NaiveDate`) are modelled as
integers counting days from the proleptic-Gregorian epoch, exactly as
chrono stores them (`num_days_from_ce`); day 1 is 0001-01-01, which is a
Monday, so the weekday of a date is determined by its day number modulo 7.
Times of day (`chrono::NaiveTime`) are modelled as natural numbers
(e.g. seconds since midnight); only their linear order is ever used.
The ambient clock `chrono::Local::now()` is passed in explicitly as a
parameter `now`.  Fallible Rust functions returning `miette::Result`
become `Except`; the one `unwrap` on a possibly-empty vector in the
command pipeline is modelled as a distinguished `panicEmptyMenu` outcome.
`Vec::sort` (a stable comparison sort) is modelled by `List.mergeSort`.
-/

namespace MensaBot

/-- `chrono::Weekday`. -/
inductive Weekday
  | Mon
  | Tue
  | Wed
  | Thu
  | Fri
  | Sat
  | Sun
deriving DecidableEq, Repr, Fintype

/-- `chrono::Weekday::number_from_monday`: Monday = 1, …, Sunday = 7. -/
def Weekday.number_from_monday : Weekday → Nat
  | .Mon => 1
  | .Tue => 2
  | .Wed => 3
  | .Thu => 4
  | .Fri => 5
  | .Sat => 6
  | .Sun => 7

/-- Weekday determined by a residue modulo 7 (0 ↦ Monday, …, 6 ↦ Sunday). -/
def weekdayOfNat (n : Nat) : Weekday :=
  match n % 7 with
  | 0 => .Mon
  | 1 => .Tue
  | 2 => .Wed
  | 3 => .Thu
  | 4 => .Fri
  | 5 => .Sat
  | _ => .Sun

/-- `chrono::NaiveDate::weekday` on the days-from-CE representation:
day 1 (0001-01-01) is a Monday. -/
def dateWeekday (d : Int) : Weekday :=
  weekdayOfNat (((d - 1) % 7).toNat)

/-- `chrono::NaiveDateTime`: a date with a time of day. -/
structure NaiveDateTime where
  date : Int
  time : Nat
deriving DecidableEq, Repr

/-- `next_weekday` from `src/commands.rs` (lines 291-296).  The source reads
`chrono::Local::now()` internally; here the current date is the explicit
parameter `today`. -/
def next_weekday (weekday : Weekday) (today : Int) : Int :=
  let days_to_add :=
    (weekday.number_from_monday + 7 - (dateWeekday today).number_from_monday) % 7
  today + (days_to_add : Int)

/-- `InvalidDayArgumentError` from `src/commands.rs`. -/
structure InvalidDayArgumentError where
  arg : String
deriving DecidableEq, Repr

/-- `parse_day_argument` from `src/commands.rs` (lines 265-287), with the
clock passed explicitly as `now`. -/
def parse_day_argument (arg : String) (now : NaiveDateTime) :
    Except InvalidDayArgumentError Int :=
  match arg with
  | "today" => .ok now.date
  | "tomorrow" => .ok (now.date + 1)
  | "dayaftertomorrow" => .ok (now.date + 2)
  | "monday" => .ok (next_weekday .Mon now.date)
  | "tuesday" => .ok (next_weekday .Tue now.date)
  | "wednesday" => .ok (next_weekday .Wed now.date)
  | "thursday" => .ok (next_weekday .Thu now.date)
  | "friday" => .ok (next_weekday .Fri now.date)
  | _ => .error ⟨arg⟩

/-- `DayCorrection` from `src/commands.rs` (lines 137-146). -/
inductive DayCorrection
  | Same
  | RollOver
  | DaysSkipped
deriving DecidableEq, Repr

/-- The baseline-date computation of `handle_mensa_command`
(`src/commands.rs` lines 153-173): when a day argument is present it is the
(already parsed) requested date with no correction; otherwise the current
date, bumped by one day with a `RollOver` correction when the current time
is strictly past the roll-over time. -/
def baselineAndCorrection (requested : Option Int) (now : NaiveDateTime)
    (roll_over_time : Nat) : Int × DayCorrection :=
  match requested with
  | some d => (d, .Same)
  | none =>
    if now.time > roll_over_time then (now.date + 1, .RollOver)
    else (now.date, .Same)

/-- The plan-selection step of `handle_mensa_command`
(`src/commands.rs` lines 176-178): sort the available plans ascending and
take the first one that is `>=` the lookup date. -/
def selectPlan (available_plans : List Int) (lookup_date : Int) : Option Int :=
  (available_plans.mergeSort (fun a b => a ≤ b)).find? (fun plan => plan ≥ lookup_date)

/-- The date-resolution core of `handle_mensa_command`
(`src/commands.rs` lines 153-195): compute the baseline and its correction,
select the first available plan `>=` the baseline, and overwrite the
correction with `DaysSkipped` whenever the selected plan differs from the
baseline (line 193). -/
def resolve (requested : Option Int) (now : NaiveDateTime) (roll_over_time : Nat)
    (available : List Int) : Option Int × DayCorrection :=
  let p := baselineAndCorrection requested now roll_over_time
  match selectPlan available p.1 with
  | none => (none, p.2)
  | some plans =>
    (some plans, if plans ≠ p.1 then DayCorrection.DaysSkipped else p.2)

/-- `Classifier` from `src/mensa/api.rs` (lines 64-95), variants in source
declaration order. -/
inductive Classifier
  | Pork
  | OrganicPork
  | Beef
  | OrganicBeef
  | Gelatine
  | Fish
  | AnimalRennet
  | Vegetarian
  | Vegan
  | MensaVital
deriving DecidableEq, Repr, Fintype

/-- The discriminant order used by Rust's `derive(Ord)` on `Classifier`:
variants compare by declaration order. -/
def Classifier.discr : Classifier → Nat
  | .Pork => 0
  | .OrganicPork => 1
  | .Beef => 2
  | .OrganicBeef => 3
  | .Gelatine => 4
  | .Fish => 5
  | .AnimalRennet => 6
  | .Vegetarian => 7
  | .Vegan => 8
  | .MensaVital => 9

/-- `Meal` from `src/mensa/api.rs`. -/
structure Meal where
  name : String
  price : String
  classifiers : List Classifier
  additives : List String
deriving DecidableEq, Repr

/-- `Line` from `src/mensa/api.rs`. -/
structure Line where
  id : Option String
  name : String
  meals : List Meal
deriving DecidableEq, Repr

/-- `Canteen` from `src/mensa/api.rs`. -/
structure Canteen where
  id : String
  name : String
deriving DecidableEq, Repr

/-- `CanteenData` from `src/mensa/api.rs`. -/
structure CanteenData where
  date : Int
  canteen : Canteen
  lines : List Line
deriving DecidableEq, Repr

/-- The per-classifier emoji table inlined in `emojiy_classifier`
(`src/commands.rs` lines 305-314); `AnimalRennet` falls into the
catch-all arm and maps to the empty string. -/
def classifierEmojiTable : Classifier → String
  | .Pork | .OrganicPork => "🐖"
  | .Beef | .OrganicBeef => "🐄"
  | .Gelatine => "🐈"
  | .Fish => "🐟"
  | .Vegetarian => "🥕"
  | .MensaVital => "🥦"
  | .Vegan => "🌱"
  | _ => ""

/-- `emojiy_classifier` from `src/commands.rs` (lines 298-317): sort the
classifiers (by the derived `Ord`, i.e. declaration order), map each to its
emoji and take the first, defaulting to the empty string. -/
def emojiy_classifier (classifier : List Classifier) : String :=
  let sorted := classifier.mergeSort (fun a b => a.discr ≤ b.discr)
  ((sorted.map classifierEmojiTable).head?).getD ""

/-- `format_line` from `src/commands.rs` (lines 241-252): drop meals with an
empty price, render each remaining meal as `<emoji><name> (<price>)`, and
join with newlines. -/
def format_line (line : Line) : String :=
  String.intercalate "\n"
    ((line.meals.filter (fun m => !(m.price.isEmpty))).map
      (fun meal => emojiy_classifier meal.classifiers ++ meal.name ++ " (" ++ meal.price ++ ")"))

/-- `weekday_to_string` from `src/commands.rs` (lines 254-263). -/
def weekday_to_string : Weekday → String
  | .Mon => "Montag"
  | .Tue => "Dienstag"
  | .Wed => "Mittwoch"
  | .Thu => "Donnerstag"
  | .Fri => "Freitag"
  | _ => "Unbekannt"

/-- The observable content of the serenity `CreateEmbed` built by
`build_embed`: title, colour, footer text, and the field triples
`(name, value, inline)` in emission order. -/
structure Embed where
  title : String
  color : Nat
  footer : String
  fields : List (String × String × Bool)
deriving DecidableEq, Repr

/-- `build_embed` from `src/commands.rs` (lines 223-239): lines whose raw
meal list is empty are skipped; every other line contributes one field
named after the line with `format_line` as its value. -/
def build_embed (canteen : CanteenData) : Embed where
  title := "Mensaeinheitsbrei für " ++ canteen.canteen.name ++ " am "
    ++ weekday_to_string (dateWeekday canteen.date)
  color := 0x6f00ff
  footer := "Klick auf mein Profilbild und lad mich zu deinem Server ein!"
  fields := canteen.lines.filterMap (fun line =>
    if line.meals.isEmpty then none
    else some (line.name, format_line line, true))

/-- The notice text chosen from the day correction
(`src/commands.rs` lines 205-213); `Same` sets no content. -/
def correctionNotice : DayCorrection → Option String
  | .RollOver => some "Die Mensa ist geschlossen. Ich habe dir den nächsten Tag ausgewählt."
  | .DaysSkipped =>
    some "An dem ausgewählten Tag ist die Mensa geschlossen. Ich habe dir den nächsten Tag ausgewählt."
  | .Same => none

/-- Extraction and parsing of the optional `tag` argument
(`src/commands.rs` lines 156-164). -/
def parseTagOption (tag : Option String) (now : NaiveDateTime) :
    Except InvalidDayArgumentError (Option Int) :=
  match tag with
  | some value => (parse_day_argument value now).map some
  | none => .ok none

/-- The observable outcome of one `handle_mensa_command` invocation. -/
inductive PipelineOutcome
  | invalidDay (err : InvalidDayArgumentError)
  | noMenu
  | panicEmptyMenu
  | reply (notice : Option String) (embed : Embed)
deriving DecidableEq, Repr

/-- `handle_mensa_command` from `src/commands.rs` (lines 148-221), with the
network dependencies passed in: `available_plans` is the result of
`get_available_plans`, and `fetch` stands for `get_canteen_data`.  The
second component of the result records the dates for which
`get_canteen_data` was invoked.  `menu.get(0).unwrap()` on an empty fetch
result is the `panicEmptyMenu` outcome. -/
def handle_mensa_command (tag : Option String) (now : NaiveDateTime)
    (roll_over_time : Nat) (available_plans : List Int)
    (fetch : Int → List CanteenData) : PipelineOutcome × List Int :=
  match parseTagOption tag now with
  | .error e => (.invalidDay e, [])
  | .ok requested =>
    match resolve requested now roll_over_time available_plans with
    | (none, _) => (.noMenu, [])
    | (some plans, day_correction) =>
      let menu := fetch plans
      match menu[0]? with
      | none => (.panicEmptyMenu, [plans])
      | some canteen =>
        (.reply (correctionNotice day_correction) (build_embed canteen), [plans])

/-- The `d.content(…)` string set on the interaction response for each
outcome: the literal "No menu available." message (line 184), the
correction notice for a reply, and nothing otherwise. -/
def responseContent : PipelineOutcome → Option String
  | .noMenu => some "No menu available."
  | .reply notice _ => notice
  | _ => none

/-! Section: Helper lemmas about the weekday model -/

theorem weekdayOfNat_congr {a b : Nat} (h : a % 7 = b % 7) :
    weekdayOfNat a = weekdayOfNat b := by
  unfold weekdayOfNat
  rw [h]

theorem dateWeekday_add (d : Int) (k : Nat) :
    dateWeekday (d + k) = weekdayOfNat (((d - 1) % 7).toNat + k) := by
  unfold dateWeekday
  apply weekdayOfNat_congr
  have h0 : d + (k : Int) - 1 = (d - 1) + k := by ring
  rw [h0, Int.add_emod]
  have h1 : (0 : Int) ≤ (d - 1) % 7 := Int.emod_nonneg _ (by norm_num)
  have h2 : (d - 1) % 7 < 7 := Int.emod_lt_of_pos _ (by norm_num)
  omega

theorem nfm_weekdayOfNat : ∀ x < 7, (weekdayOfNat x).number_from_monday = x + 1 := by
  decide

theorem weekdayOfNat_inj7 : ∀ x < 7, ∀ y < 7, weekdayOfNat x = weekdayOfNat y → x = y := by
  decide

theorem nfm_bounds : ∀ w : Weekday, 1 ≤ w.number_from_monday ∧ w.number_from_monday ≤ 7 := by
  decide

theorem weekdayOfNat_nfm : ∀ w : Weekday, weekdayOfNat (w.number_from_monday - 1) = w := by
  decide

/-- Full specification of `next_weekday`: the result lies within the next
seven days starting at `today`, has the requested weekday, is the least
such date, equals `today` when `today` already has that weekday, and is
strictly later otherwise. -/
theorem next_weekday_spec (w : Weekday) (today : Int) :
    today ≤ next_weekday w today ∧
    next_weekday w today ≤ today + 6 ∧
    dateWeekday (next_weekday w today) = w ∧
    (∀ e : Int, today ≤ e → dateWeekday e = w → next_weekday w today ≤ e) ∧
    (dateWeekday today = w → next_weekday w today = today) ∧
    (dateWeekday today ≠ w → today < next_weekday w today) := by
  have hr0 : (0 : Int) ≤ (today - 1) % 7 := Int.emod_nonneg _ (by norm_num)
  have hr7 : (today - 1) % 7 < 7 := Int.emod_lt_of_pos _ (by norm_num)
  set r : Nat := ((today - 1) % 7).toNat with hrdef
  have hrlt : r < 7 := by omega
  have hdwt : dateWeekday today = weekdayOfNat r := rfl
  have ht : (dateWeekday today).number_from_monday = r + 1 := by
    rw [hdwt]
    exact nfm_weekdayOfNat r hrlt
  obtain ⟨hn1, hn7⟩ := nfm_bounds w
  have hnw : next_weekday w today
      = today + (((w.number_from_monday + 7 - (r + 1)) % 7 : Nat) : Int) := by
    simp only [next_weekday, ht]
  have hdays7 : (w.number_from_monday + 7 - (r + 1)) % 7 < 7 := Nat.mod_lt _ (by norm_num)
  have hweek : dateWeekday (next_weekday w today) = w := by
    rw [hnw, dateWeekday_add, ← hrdef]
    calc weekdayOfNat (r + (w.number_from_monday + 7 - (r + 1)) % 7)
        = weekdayOfNat (w.number_from_monday - 1) := weekdayOfNat_congr (by omega)
      _ = w := weekdayOfNat_nfm w
  refine ⟨by rw [hnw]; omega, by rw [hnw]; omega, hweek, ?_, ?_, ?_⟩
  · intro e he hw
    obtain ⟨m, rfl⟩ : ∃ m : Nat, e = today + m := ⟨(e - today).toNat, by omega⟩
    rw [dateWeekday_add, ← hrdef] at hw
    have hww : weekdayOfNat ((r + m) % 7) = weekdayOfNat ((w.number_from_monday - 1) % 7) := by
      calc weekdayOfNat ((r + m) % 7) = weekdayOfNat (r + m) := weekdayOfNat_congr (by omega)
        _ = w := hw
        _ = weekdayOfNat (w.number_from_monday - 1) := (weekdayOfNat_nfm w).symm
        _ = weekdayOfNat ((w.number_from_monday - 1) % 7) := weekdayOfNat_congr (by omega)
    have hmod : (r + m) % 7 = (w.number_from_monday - 1) % 7 :=
      weekdayOfNat_inj7 _ (Nat.mod_lt _ (by norm_num)) _ (Nat.mod_lt _ (by norm_num)) hww
    rw [hnw]
    omega
  · intro h
    have hn : w.number_from_monday = r + 1 := by
      rw [← h]
      exact ht
    rw [hnw, hn]
    omega
  · intro h
    have h1 : today ≤ next_weekday w today := by rw [hnw]; omega
    rcases lt_or_eq_of_le h1 with h2 | h2
    · exact h2
    · exfalso
      apply h
      rw [← h2] at hweek
      exact hweek

/-! Section: Helper lemmas about plan selection -/

theorem intLe_trans_b : ∀ a b c : Int,
    decide (a ≤ b) = true → decide (b ≤ c) = true → decide (a ≤ c) = true := by
  intro a b c h1 h2
  simp only [decide_eq_true_eq] at *
  omega

theorem intLe_total_b : ∀ a b : Int, (decide (a ≤ b) || decide (b ≤ a)) = true := by
  intro a b
  simp only [Bool.or_eq_true, decide_eq_true_eq]
  omega

theorem mergeSort_int_sorted (l : List Int) :
    (l.mergeSort (fun a b => a ≤ b)).Pairwise (· ≤ ·) := by
  have h := List.sorted_mergeSort intLe_trans_b intLe_total_b l
  exact h.imp (by simp only [decide_eq_true_eq, imp_self, implies_true])

theorem mergeSort_int_perm (l : List Int) :
    (l.mergeSort (fun a b => a ≤ b)).Perm l :=
  List.mergeSort_perm l _

theorem mergeSort_int_congr_perm {l l' : List Int} (h : l.Perm l') :
    l.mergeSort (fun a b => a ≤ b) = l'.mergeSort (fun a b => a ≤ b) := by
  have hp : (l.mergeSort (fun a b => a ≤ b)).Perm (l'.mergeSort (fun a b => a ≤ b)) :=
    ((mergeSort_int_perm l).trans h).trans (mergeSort_int_perm l').symm
  have hs1 : List.Sorted (· ≤ ·) (l.mergeSort (fun a b => a ≤ b)) := mergeSort_int_sorted l
  have hs2 : List.Sorted (· ≤ ·) (l'.mergeSort (fun a b => a ≤ b)) := mergeSort_int_sorted l'
  exact List.eq_of_perm_of_sorted hp hs1 hs2

/-- `selectPlan` is invariant under permutation of the availability list. -/
theorem selectPlan_perm {l l' : List Int} (h : l.Perm l') (b : Int) :
    selectPlan l b = selectPlan l' b := by
  unfold selectPlan
  rw [mergeSort_int_congr_perm h]

/-- Forward direction of the selection characterisation: a selected plan is
an element of the list, at least the baseline, and least among such. -/
theorem selectPlan_some_spec {l : List Int} {b d : Int} (h : selectPlan l b = some d) :
    d ∈ l ∧ b ≤ d ∧ ∀ x ∈ l, b ≤ x → d ≤ x := by
  have hperm := mergeSort_int_perm l
  have hsorted := mergeSort_int_sorted l
  unfold selectPlan at h
  rw [List.find?_eq_some] at h
  obtain ⟨hd, as, bs, hsplit, has⟩ := h
  have hmem : d ∈ l.mergeSort (fun a b => a ≤ b) := by
    rw [hsplit]
    exact List.mem_append_right _ (List.mem_cons_self d bs)
  refine ⟨hperm.subset hmem, by simpa using hd, ?_⟩
  intro x hx hbx
  have hxs : x ∈ l.mergeSort (fun a b => a ≤ b) := hperm.symm.subset hx
  rw [hsplit] at hxs
  rcases List.mem_append.mp hxs with hxa | hxc
  · exfalso
    have := has x hxa
    simp only [ge_iff_le, Bool.not_eq_eq_eq_not, Bool.not_true, decide_eq_false_iff_not] at this
    exact this hbx
  · rcases List.mem_cons.mp hxc with rfl | hxb
    · exact le_refl x
    · rw [hsplit] at hsorted
      have hpair := (List.pairwise_append.mp hsorted).2.1
      exact (List.pairwise_cons.mp hpair).1 x hxb

/-- `selectPlan l b = some d` exactly when `d` is the least element of `l`
that is `≥ b`. -/
theorem selectPlan_eq_some_iff (l : List Int) (b d : Int) :
    selectPlan l b = some d ↔ d ∈ l ∧ b ≤ d ∧ ∀ x ∈ l, b ≤ x → d ≤ x := by
  constructor
  · exact selectPlan_some_spec
  · intro ⟨hmem, hbd, hmin⟩
    rcases hsel : selectPlan l b with _ | d'
    · exfalso
      unfold selectPlan at hsel
      rw [List.find?_eq_none] at hsel
      have := hsel d ((mergeSort_int_perm l).symm.subset hmem)
      simp only [ge_iff_le, decide_eq_true_eq] at this
      exact this hbd
    · obtain ⟨hmem', hbd', hmin'⟩ := selectPlan_some_spec hsel
      have h1 : d ≤ d' := hmin d' hmem' hbd'
      have h2 : d' ≤ d := hmin' d hmem hbd
      congr 1
      omega

/-- `selectPlan l b = none` exactly when no element of `l` is `≥ b`. -/
theorem selectPlan_eq_none_iff (l : List Int) (b : Int) :
    selectPlan l b = none ↔ ∀ x ∈ l, x < b := by
  have hperm := mergeSort_int_perm l
  unfold selectPlan
  rw [List.find?_eq_none]
  constructor
  · intro h x hx
    have := h x (hperm.symm.subset hx)
    simp only [ge_iff_le, decide_eq_true_eq] at this
    omega
  · intro h x hx
    have := h x (hperm.subset hx)
    simp only [ge_iff_le, decide_eq_true_eq]
    omega

/-! Section: Helper lemmas about classifier sorting -/

theorem classifierLe_trans_b : ∀ a b c : Classifier,
    decide (a.discr ≤ b.discr) = true → decide (b.discr ≤ c.discr) = true →
    decide (a.discr ≤ c.discr) = true := by
  decide

theorem classifierLe_total_b : ∀ a b : Classifier,
    (decide (a.discr ≤ b.discr) || decide (b.discr ≤ a.discr)) = true := by
  decide

theorem mergeSort_classifier_sorted (l : List Classifier) :
    (l.mergeSort (fun a b => a.discr ≤ b.discr)).Pairwise (fun a b => a.discr ≤ b.discr) := by
  have h := List.sorted_mergeSort classifierLe_trans_b classifierLe_total_b l
  exact h.imp (by simp only [decide_eq_true_eq, imp_self, implies_true])

/-! Section: Claim theorems -/

/-- C5: with no day token, the baseline is `now.date`, incremented by one
day with correction `RollOver` exactly when `now.time` is strictly greater
than the configured roll-over time; at or before the roll-over time no
correction is applied and the baseline stays `now.date`. -/
theorem claim_C5 (now : NaiveDateTime) (roll_over_time : Nat) :
    (now.time > roll_over_time →
      baselineAndCorrection none now roll_over_time = (now.date + 1, DayCorrection.RollOver)) ∧
    (now.time = roll_over_time →
      baselineAndCorrection none now roll_over_time = (now.date, DayCorrection.Same)) ∧
    (now.time ≤ roll_over_time →
      baselineAndCorrection none now roll_over_time = (now.date, DayCorrection.Same)) := by
  unfold baselineAndCorrection
  refine ⟨fun h => ?_, fun h => ?_, fun h => ?_⟩
  · rw [if_pos h]
  · rw [if_neg (by omega)]
  · rw [if_neg (by omega)]

theorem claim_C5_witness :
    baselineAndCorrection none ⟨100, 5⟩ 3 = (101, DayCorrection.RollOver) ∧
    baselineAndCorrection none ⟨100, 3⟩ 3 = (100, DayCorrection.Same) :=
  ⟨(claim_C5 ⟨100, 5⟩ 3).1 (by decide), (claim_C5 ⟨100, 3⟩ 3).2.1 (by decide)⟩

/-- C6: each weekday token parses to the next calendar date on or after
`now.date` whose weekday matches the token — equal to `now.date` when it
already falls on that weekday, strictly later (and at most 6 days later)
otherwise, and least among all matching dates on or after `now.date`. -/
theorem claim_C6 (tok : String) (w : Weekday) (now : NaiveDateTime)
    (htok : (tok, w) ∈ [("monday", Weekday.Mon), ("tuesday", Weekday.Tue),
      ("wednesday", Weekday.Wed), ("thursday", Weekday.Thu), ("friday", Weekday.Fri)]) :
    ∃ d : Int, parse_day_argument tok now = .ok d ∧
      now.date ≤ d ∧ d ≤ now.date + 6 ∧ dateWeekday d = w ∧
      (∀ e : Int, now.date ≤ e → dateWeekday e = w → d ≤ e) ∧
      (dateWeekday now.date = w → d = now.date) ∧
      (dateWeekday now.date ≠ w → now.date < d) := by
  obtain ⟨h1, h2, h3, h4, h5, h6⟩ := next_weekday_spec w now.date
  refine ⟨next_weekday w now.date, ?_, h1, h2, h3, h4, h5, h6⟩
  simp only [List.mem_cons, List.not_mem_nil, or_false, Prod.mk.injEq] at htok
  rcases htok with ⟨rfl, rfl⟩ | ⟨rfl, rfl⟩ | ⟨rfl, rfl⟩ | ⟨rfl, rfl⟩ | ⟨rfl, rfl⟩ <;> rfl

theorem claim_C6_witness :
    parse_day_argument "monday" ⟨1, 0⟩ = Except.ok 1 := by
  obtain ⟨d, hd, h1, h2, h3, h4, h5, h6⟩ :=
    claim_C6 "monday" Weekday.Mon ⟨1, 0⟩ (List.mem_cons_self _ _)
  have hdm : d = 1 := h5 (by decide)
  rw [hd, hdm]

/-- C3: the resolver sorts the availability list ascending and selects
exactly the least listed date that is `≥` the baseline (`none` exactly when
no such date exists); the selection is invariant under permutation of the
input list. -/
theorem claim_C3 (available : List Int) (baseline : Int) :
    (∀ available' : List Int, available.Perm available' →
      selectPlan available baseline = selectPlan available' baseline) ∧
    (∀ d : Int, selectPlan available baseline = some d ↔
      d ∈ available ∧ baseline ≤ d ∧ ∀ x ∈ available, baseline ≤ x → d ≤ x) ∧
    (selectPlan available baseline = none ↔ ∀ x ∈ available, x < baseline) ∧
    List.Sorted (· ≤ ·) (available.mergeSort (fun a b => a ≤ b)) ∧
    (available.mergeSort (fun a b => a ≤ b)).Perm available :=
  ⟨fun _ h => selectPlan_perm h baseline,
   fun d => selectPlan_eq_some_iff available baseline d,
   selectPlan_eq_none_iff available baseline,
   mergeSort_int_sorted available,
   mergeSort_int_perm available⟩

theorem claim_C3_witness :
    selectPlan [5, 3, 9] 4 = selectPlan [9, 5, 3] 4 ∧ selectPlan [5, 3, 9] 4 = some 5 := by
  constructor
  · exact (claim_C3 [5, 3, 9] 4).1 [9, 5, 3] (by decide)
  · exact ((claim_C3 [5, 3, 9] 4).2.1 5).mpr
      ⟨by simp, by norm_num, by intro x hx hbx; fin_cases hx <;> omega⟩

/-- Reduction of `resolve` when no plan is selected. -/
theorem resolve_of_select_none {requested : Option Int} {now : NaiveDateTime}
    {roll_over_time : Nat} {available : List Int}
    (h : selectPlan available (baselineAndCorrection requested now roll_over_time).1 = none) :
    resolve requested now roll_over_time available
      = (none, (baselineAndCorrection requested now roll_over_time).2) := by
  unfold resolve
  dsimp only
  rw [h]

/-- Reduction of `resolve` when a plan is selected. -/
theorem resolve_of_select_some {requested : Option Int} {now : NaiveDateTime}
    {roll_over_time : Nat} {available : List Int} {plans : Int}
    (h : selectPlan available (baselineAndCorrection requested now roll_over_time).1 = some plans) :
    resolve requested now roll_over_time available
      = (some plans,
         if plans ≠ (baselineAndCorrection requested now roll_over_time).1
         then DayCorrection.DaysSkipped
         else (baselineAndCorrection requested now roll_over_time).2) := by
  unfold resolve
  dsimp only
  rw [h]

/-- C8: in explicit-request mode, resolving date `D` against availability
`[D]` yields `(some D, Same)` and against `[D + 3]` yields
`(some (D + 3), DaysSkipped)`; generally a selected date differing from the
requested one is classified `DaysSkipped`, and an exact match leaves the
correction `Same`. -/
theorem claim_C8 (D : Int) (now : NaiveDateTime) (roll_over_time : Nat) :
    resolve (some D) now roll_over_time [D] = (some D, DayCorrection.Same) ∧
    resolve (some D) now roll_over_time [D + 3] = (some (D + 3), DayCorrection.DaysSkipped) ∧
    (∀ (available : List Int) (d : Int),
      (resolve (some D) now roll_over_time available).1 = some d → d ≠ D →
      (resolve (some D) now roll_over_time available).2 = DayCorrection.DaysSkipped) ∧
    (∀ available : List Int,
      (resolve (some D) now roll_over_time available).1 = some D →
      (resolve (some D) now roll_over_time available).2 = DayCorrection.Same) := by
  have hb : baselineAndCorrection (some D) now roll_over_time = (D, DayCorrection.Same) := rfl
  have h1 : selectPlan [D] D = some D :=
    (selectPlan_eq_some_iff _ _ _).mpr
      ⟨by simp, le_refl D, by intro x hx _; simp at hx; omega⟩
  have h2 : selectPlan [D + 3] D = some (D + 3) :=
    (selectPlan_eq_some_iff _ _ _).mpr
      ⟨by simp, by omega, by intro x hx _; simp at hx; omega⟩
  refine ⟨?_, ?_, ?_, ?_⟩
  · rw [resolve_of_select_some (by rw [hb]; exact h1), hb]
    simp
  · rw [resolve_of_select_some (by rw [hb]; exact h2), hb]
    simp
  · intro available d hsel hne
    rcases hsp : selectPlan available D with _ | d'
    · rw [resolve_of_select_none (by rw [hb]; exact hsp)] at hsel
      simp at hsel
    · rw [resolve_of_select_some (by rw [hb]; exact hsp)] at hsel
      simp at hsel
      subst hsel
      rw [resolve_of_select_some (by rw [hb]; exact hsp), hb]
      simp [hne]
  · intro available hsel
    rcases hsp : selectPlan available D with _ | d'
    · rw [resolve_of_select_none (by rw [hb]; exact hsp)] at hsel
      simp at hsel
    · rw [resolve_of_select_some (by rw [hb]; exact hsp)] at hsel
      simp at hsel
      subst hsel
      rw [resolve_of_select_some (by rw [hb]; exact hsp), hb]
      simp

theorem claim_C8_witness :
    (resolve (some 10) ⟨0, 0⟩ 0 [13]).2 = DayCorrection.DaysSkipped := by
  have h := (claim_C8 10 ⟨0, 0⟩ 0).2.1
  norm_num at h
  exact (claim_C8 10 ⟨0, 0⟩ 0).2.2.1 [13] 13 (by rw [h]) (by decide)

theorem claim_C1_counterexample :
    resolve none ⟨10, 2⟩ 1 [13] = (some 13, DayCorrection.DaysSkipped) ∧
    (2 : Nat) > 1 ∧
    baselineAndCorrection none ⟨10, 2⟩ 1 = (11, DayCorrection.RollOver) ∧
    (13 : Int) ≠ 11 ∧
    DayCorrection.DaysSkipped ≠ DayCorrection.RollOver := by
  refine ⟨?_, by decide, by decide, by decide, by decide⟩
  simp [resolve, baselineAndCorrection, selectPlan, List.mergeSort]

/-- C1 (amended): when the rollover branch fired (no day token and
`now.time` strictly past the roll-over time) and the selected available
date differs from the rolled-over baseline, the returned correction is
`DaysSkipped`, not `RollOver` — the availability-mismatch check overwrites
the rollover correction, so the two kinds stay mutually exclusive with the
skip correction taking precedence. -/
theorem claim_C1 (now : NaiveDateTime) (roll_over_time : Nat) (available : List Int) (d : Int)
    (hroll : now.time > roll_over_time)
    (hsel : (resolve none now roll_over_time available).1 = some d)
    (hdiff : d ≠ now.date + 1) :
    (resolve none now roll_over_time available).2 = DayCorrection.DaysSkipped := by
  have hb : baselineAndCorrection none now roll_over_time
      = (now.date + 1, DayCorrection.RollOver) := by
    unfold baselineAndCorrection
    rw [if_pos hroll]
  rcases hsp : selectPlan available (now.date + 1) with _ | d'
  · rw [resolve_of_select_none (by rw [hb]; exact hsp)] at hsel
    simp at hsel
  · rw [resolve_of_select_some (by rw [hb]; exact hsp)] at hsel
    simp at hsel
    subst hsel
    rw [resolve_of_select_some (by rw [hb]; exact hsp), hb]
    simp [hdiff]

theorem claim_C1_witness :
    (resolve none ⟨10, 2⟩ 1 [13]).2 = DayCorrection.DaysSkipped :=
  claim_C1 ⟨10, 2⟩ 1 [13] 13 (by decide)
    (by simp [resolve, baselineAndCorrection, selectPlan, List.mergeSort]) (by decide)

/-- C4: when no available date is on or after the baseline — in particular
whenever the availability list is empty, regardless of request, clock and
roll-over time — the resolver yields no date, the pipeline answers with the
literal "No menu available." message, and no menu fetch is performed. -/
theorem claim_C4 (tag : Option String) (now : NaiveDateTime) (roll_over_time : Nat)
    (available : List Int) (fetch : Int → List CanteenData) (requested : Option Int)
    (hparse : parseTagOption tag now = .ok requested)
    (hnone : ∀ p ∈ available, p < (baselineAndCorrection requested now roll_over_time).1) :
    (resolve requested now roll_over_time available).1 = none ∧
    handle_mensa_command tag now roll_over_time available fetch
      = (PipelineOutcome.noMenu, []) ∧
    responseContent PipelineOutcome.noMenu = some "No menu available." ∧
    (∀ requested' : Option Int, (resolve requested' now roll_over_time []).1 = none) := by
  have hsp : selectPlan available (baselineAndCorrection requested now roll_over_time).1 = none :=
    (selectPlan_eq_none_iff _ _).mpr hnone
  have hres := resolve_of_select_none hsp
  refine ⟨by rw [hres], ?_, rfl, ?_⟩
  · unfold handle_mensa_command
    rw [hparse]
    dsimp only
    rw [hres]
  · intro requested'
    have h0 : selectPlan [] (baselineAndCorrection requested' now roll_over_time).1 = none :=
      (selectPlan_eq_none_iff _ _).mpr (by intro x hx; simp at hx)
    rw [resolve_of_select_none h0]

theorem claim_C4_witness :
    handle_mensa_command (some "today") ⟨50, 0⟩ 0 [] (fun _ => [])
      = (PipelineOutcome.noMenu, []) :=
  (claim_C4 (some "today") ⟨50, 0⟩ 0 [] (fun _ => []) (some 50) rfl
    (by intro p hp; simp at hp)).2.1

/-- C10: the pipeline takes element 0 of the fetched menu collection with an
unchecked unwrap: whenever the fetch for the resolved date returns the empty
collection the pipeline panics instead of producing a handled error or a
user-facing response, and a reply is produced exactly when the fetch result
is non-empty (the access is safe only under that precondition). -/
theorem claim_C10 (tag : Option String) (now : NaiveDateTime) (roll_over_time : Nat)
    (available : List Int) (fetch : Int → List CanteenData) (requested : Option Int) (d : Int)
    (hparse : parseTagOption tag now = .ok requested)
    (hres : (resolve requested now roll_over_time available).1 = some d) :
    (fetch d = [] →
      handle_mensa_command tag now roll_over_time available fetch
        = (PipelineOutcome.panicEmptyMenu, [d])) ∧
    (∀ canteen rest, fetch d = canteen :: rest →
      handle_mensa_command tag now roll_over_time available fetch
        = (PipelineOutcome.reply
            (correctionNotice (resolve requested now roll_over_time available).2)
            (build_embed canteen), [d])) := by
  rcases hr : resolve requested now roll_over_time available with ⟨od, c⟩
  rw [hr] at hres
  dsimp only at hres
  subst hres
  constructor
  · intro hf
    unfold handle_mensa_command
    rw [hparse]
    dsimp only
    rw [hr]
    dsimp only
    rw [hf]
    rfl
  · intro canteen rest hf
    unfold handle_mensa_command
    rw [hparse]
    dsimp only
    rw [hr]
    dsimp only
    rw [hf]
    simp

theorem claim_C10_witness :
    handle_mensa_command none ⟨5, 0⟩ 1 [5] (fun _ => [])
      = (PipelineOutcome.panicEmptyMenu, [5]) :=
  (claim_C10 none ⟨5, 0⟩ 1 [5] (fun _ => []) none 5 rfl
    (by simp [resolve, baselineAndCorrection, selectPlan, List.mergeSort])).1 rfl

theorem claim_C2_counterexample :
    (build_embed ⟨0, ⟨"mensa_adenauerring", "KIT Campus"⟩,
        [⟨none, "Linie 1", [⟨"Gulasch", "", [], []⟩]⟩]⟩).fields
      = [("Linie 1", "", true)] := by
  simp [build_embed, format_line, emojiy_classifier, List.mergeSort,
    show "".isEmpty = true from rfl]
  rfl

/-- C2 (amended): meals with an empty-string price are excluded from every
rendered Line, but a Line is omitted only when its raw meal list is empty:
a Line whose meals all have empty prices still emits a titled section whose
body is the empty string, because the emptiness check runs before the price
filter. -/
theorem claim_C2 (canteen : CanteenData) :
    (∀ line : Line,
      format_line line
        = format_line ⟨line.id, line.name, line.meals.filter (fun m => !(m.price.isEmpty))⟩) ∧
    (∀ line ∈ canteen.lines, line.meals ≠ [] →
      (line.name, format_line line, true) ∈ (build_embed canteen).fields) ∧
    (∀ line ∈ canteen.lines, line.meals ≠ [] → (∀ m ∈ line.meals, m.price = "") →
      (line.name, "", true) ∈ (build_embed canteen).fields) := by
  have hfmt : ∀ line : Line,
      format_line line
        = format_line ⟨line.id, line.name, line.meals.filter (fun m => !(m.price.isEmpty))⟩ := by
    intro line
    simp only [format_line, List.filter_filter, Bool.and_self]
  have hmem : ∀ line ∈ canteen.lines, line.meals ≠ [] →
      (line.name, format_line line, true) ∈ (build_embed canteen).fields := by
    intro line hline hne
    simp only [build_embed, List.mem_filterMap]
    refine ⟨line, hline, ?_⟩
    rw [if_neg (by simpa using hne)]
  refine ⟨hfmt, hmem, ?_⟩
  intro line hline hne hall
  have hempty : format_line line = "" := by
    have h0 : line.meals.filter (fun m => !(m.price.isEmpty)) = [] := by
      rw [List.filter_eq_nil_iff]
      intro m hm
      simp [hall m hm]
      decide
    simp only [format_line, h0, List.map_nil]
    rfl
  have := hmem line hline hne
  rw [hempty] at this
  exact this

theorem claim_C2_witness :
    ("Linie 1", "", true) ∈ (build_embed ⟨0, ⟨"mensa_adenauerring", "KIT Campus"⟩,
        [⟨none, "Linie 1", [⟨"Gulasch", "", [], []⟩]⟩]⟩).fields := by
  exact (claim_C2 ⟨0, ⟨"mensa_adenauerring", "KIT Campus"⟩,
        [⟨none, "Linie 1", [⟨"Gulasch", "", [], []⟩]⟩]⟩).2.2
      ⟨none, "Linie 1", [⟨"Gulasch", "", [], []⟩]⟩ (by simp) (by simp)
      (by intro m hm; simp at hm; subst hm; rfl)

/-- C7: a meal's classifiers are sorted by the fixed enumeration order and
only the emoji of the first (lowest-ordered) classifier is rendered, never
more than one: the rendered string is the emoji-table entry of a minimal
classifier of the set; a meal tagged {Vegan, Beef} renders the Beef emoji
only, and an unmapped first classifier (AnimalRennet) renders as the empty
string. -/
theorem claim_C7 (cs : List Classifier) (h : cs ≠ []) :
    (∃ c ∈ cs, (∀ c' ∈ cs, c.discr ≤ c'.discr) ∧
      emojiy_classifier cs = classifierEmojiTable c) ∧
    emojiy_classifier [Classifier.Vegan, Classifier.Beef] = "🐄" ∧
    emojiy_classifier [Classifier.Beef, Classifier.Vegan] = "🐄" ∧
    emojiy_classifier [Classifier.Vegetarian, Classifier.AnimalRennet] = "" ∧
    classifierEmojiTable Classifier.AnimalRennet = "" := by
  refine ⟨?_, ?_, ?_, ?_, rfl⟩
  · have hperm : (cs.mergeSort (fun a b => a.discr ≤ b.discr)).Perm cs :=
      List.mergeSort_perm cs _
    have hsorted := mergeSort_classifier_sorted cs
    rcases hs : cs.mergeSort (fun a b => a.discr ≤ b.discr) with _ | ⟨c0, t⟩
    · exfalso
      rw [hs] at hperm
      exact h (hperm.symm.eq_nil)
    · rw [hs] at hperm hsorted
      refine ⟨c0, hperm.subset (List.mem_cons_self c0 t), ?_, ?_⟩
      · intro c' hc'
        rcases List.mem_cons.mp (hperm.symm.subset hc') with rfl | hct
        · exact le_refl _
        · exact (List.pairwise_cons.mp hsorted).1 c' hct
      · unfold emojiy_classifier
        rw [hs]
        rfl
  · simp [emojiy_classifier, List.mergeSort, Classifier.discr, classifierEmojiTable]
  · simp [emojiy_classifier, List.mergeSort, Classifier.discr, classifierEmojiTable]
  · simp [emojiy_classifier, List.mergeSort, Classifier.discr, classifierEmojiTable]

theorem claim_C7_witness :
    emojiy_classifier [Classifier.Vegan, Classifier.Beef] = "🐄" :=
  (claim_C7 [Classifier.Vegan, Classifier.Beef] (by simp)).2.1

end MensaBot
